import Mathlib

/-!
Verification of the trezor UI runtime core (`src/trezor/ui/__init__.py`)
against its natural-language specification.

The Python source is shallowly embedded: pure functions become Lean
functions on ℤ/ℕ/ℚ, Python's unbounded-integer bitwise operators and
floor division/modulo are modelled exactly (`pyAnd`, `pyOr`, `pyShl`,
`pyShr`, `Int.fdiv`, `Int.fmod`), generators and coroutines become
functions producing explicit traces of their observable effects
(backlight writes, scheduled sleeps, event dispatches, task
cancellations), and the cooperative scheduler is driven by an explicit
list of scheduling decisions.
-/

/-! ## Python arithmetic primitives -/

/-- Python `int(...)` applied to a rational: truncation toward zero.
(The source's `lerpi` calls `int()` on a float; on the integer inputs and
the endpoint interpolation factors the claims use, float arithmetic is
exact, so ℚ is a faithful carrier.) -/
def pyTrunc (q : ℚ) : ℤ := if 0 ≤ q then ⌊q⌋ else ⌈q⌉

/-- Python `&` on unbounded integers: two's-complement bitwise AND.
`Int.negSucc n` represents `-(n+1)`, whose bit pattern is the complement
of `n`, giving the four standard cases. -/
def pyAnd : ℤ → ℤ → ℤ
  | .ofNat m, .ofNat n => .ofNat (m &&& n)
  | .ofNat m, .negSucc n => .ofNat (Nat.ldiff m n)
  | .negSucc m, .ofNat n => .ofNat (Nat.ldiff n m)
  | .negSucc m, .negSucc n => .negSucc (m ||| n)

/-- Python `|` on unbounded integers: two's-complement bitwise OR. -/
def pyOr : ℤ → ℤ → ℤ
  | .ofNat m, .ofNat n => .ofNat (m ||| n)
  | .ofNat m, .negSucc n => .negSucc (Nat.ldiff n m)
  | .negSucc m, .ofNat n => .negSucc (Nat.ldiff m n)
  | .negSucc m, .negSucc n => .negSucc (m &&& n)

/-- Python `x << k` (the source only shifts by literal non-negative
amounts): multiplication by `2 ^ k`. -/
def pyShl (x : ℤ) (k : ℕ) : ℤ := x * 2 ^ k

/-- Python `x >> k`: arithmetic shift, i.e. floor division by `2 ^ k`. -/
def pyShr (x : ℤ) (k : ℕ) : ℤ := Int.fdiv x (2 ^ k)

/-! ## Color utilities (source lines 33-46) -/

/-- Source `lerpi(a, b, t) = int(a + t * (b - a))`. -/
def lerpi (a b : ℤ) (t : ℚ) : ℤ := pyTrunc ((a : ℚ) + t * ((b : ℚ) - (a : ℚ)))

/-- Source `rgb(r, g, b) = ((r & 0xF8) << 8) | ((g & 0xFC) << 3) | ((b & 0xF8) >> 3)`. -/
def rgb (r g b : ℤ) : ℤ :=
  pyOr (pyOr (pyShl (pyAnd r 0xF8) 8) (pyShl (pyAnd g 0xFC) 3)) (pyShr (pyAnd b 0xF8) 3)

/-- Source `blend(ca, cb, t)`: per-channel `lerpi` of the unpacked RGB565
channels of `ca` and `cb`, repacked with `rgb`. -/
def blend (ca cb : ℤ) (t : ℚ) : ℤ :=
  rgb (lerpi (pyAnd (pyShr ca 8) 0xF8) (pyAnd (pyShr cb 8) 0xF8) t)
    (lerpi (pyAnd (pyShr ca 3) 0xFC) (pyAnd (pyShr cb 3) 0xFC) t)
    (lerpi (pyAnd (pyShl ca 3) 0xF8) (pyAnd (pyShl cb 3) 0xF8) t)

/-! ## Coordinate rotation (source lines 59-69)

The source reads `display.orientation()` and the constants `WIDTH` and
`HEIGHT` from the external display adapter (the `trezorui` C module,
not part of this repository's Python sources); the model takes the
orientation `r` and the display dimensions `W`, `H` as parameters.
The fall-through for unrecognized orientations returns Python `None`,
modelled as `Option.none`. -/

def rotate (W H : ℤ) (r : ℤ) (pos : ℤ × ℤ) : Option (ℤ × ℤ) :=
  if r = 0 then some pos
  else if r = 90 then some (pos.2, W - pos.1)
  else if r = 180 then some (W - pos.1, H - pos.2)
  else if r = 270 then some (H - pos.2, pos.1)
  else none

/-- Applying `rotate` once at each orientation of the sequence
0°, 90°, 180°, 270° (the composition the claim describes). -/
def fourCycleSeq (W H : ℤ) (p : ℤ × ℤ) : Option (ℤ × ℤ) :=
  rotate W H 0 p >>= rotate W H 90 >>= rotate W H 180 >>= rotate W H 270

/-! ## Python `range` (used by `backlight_slide` and `alert`) -/

/-- Number of elements of Python `range(start, stop, step)` for `step ≠ 0`
(the source never calls `range` with a zero step; Python would raise
`ValueError` there). -/
def pyRangeLen (start stop step : ℤ) : ℕ :=
  if 0 < step then ((stop - start).toNat + (step.toNat - 1)) / step.toNat
  else if step < 0 then ((start - stop).toNat + ((-step).toNat - 1)) / (-step).toNat
  else 0

/-- Python `range(start, stop, step)` as the list of produced values. -/
def pyRange (start stop step : ℤ) : List ℤ :=
  (List.range (pyRangeLen start stop step)).map fun k : ℕ => start + (k : ℤ) * step

/-! ## Backlight slides (source lines 105-117)

Source `backlight_slide(val, delay, step)` reads `current =
display.backlight()` and then writes `display.backlight(i)` for `i in
range(current, val, -step if current > val else step)`, suspending on a
sleep between writes; `backlight_slide_sync` is identical except that it
blocks with `utime.sleep_us(delay)` instead of suspending. The model
returns the sequence of backlight writes each performs; the delay value
does not influence the writes. -/

def backlight_slide (current val step : ℤ) : List ℤ :=
  pyRange current val (if current > val then -step else step)

def backlight_slide_sync (current val step : ℤ) : List ℤ :=
  pyRange current val (if current > val then -step else step)

/-- The backlight level after a sequence of writes, starting from
`current`: the last write if there is one, otherwise unchanged. -/
def finalBacklight (current : ℤ) (writes : List ℤ) : ℤ := writes.getLastD current

/-- Adjacent-pair strict increase of a write sequence. -/
def strictIncr : List ℤ → Bool
  | a :: b :: rest => decide (a < b) && strictIncr (b :: rest)
  | _ => true

/-! ## The `alert` animation generator (source lines 78-89)

Source: reads `current = display.backlight()`; for `i in range(count*2)`
writes `BACKLIGHT_MAX` and yields a 20000 µs sleep when `i` is even,
writes `BACKLIGHT_NORMAL` and yields an 80000 µs sleep when `i` is odd;
finally writes `current` back. The backlight constants live in the
external `trezor.ui.style` module, so they are parameters `maxB`,
`normB`. The model is the generator's trace of writes and yielded
sleeps. -/

inductive AlertEv where
  | setBacklight (v : ℤ)
  | sleepUs (us : ℤ)
deriving DecidableEq

def alert (maxB normB current : ℤ) (count : ℕ) : List AlertEv :=
  ((List.range (count * 2)).flatMap fun i =>
    if i % 2 = 0 then [AlertEv.setBacklight maxB, AlertEv.sleepUs 20000]
    else [AlertEv.setBacklight normB, AlertEv.sleepUs 80000])
  ++ [AlertEv.setBacklight current]

/-- Replay the backlight writes of a trace over a starting level. -/
def runBacklight (b : ℤ) (l : List AlertEv) : ℤ :=
  l.foldl (fun acc e => match e with | .setBacklight v => v | .sleepUs _ => acc) b

def isSleepEv : AlertEv → Bool
  | .sleepUs _ => true
  | _ => false

/-! ## The `layout` transition decorator (source lines 120-134)

Source `inner`: awaits `backlight_slide(BACKLIGHT_DIM)`, creates the
`slide` generator, then in a `try` block constructs `layout =
fn(*args)`, schedules `slide`, clears the display, and awaits the
layout; the `finally` block runs `loop.close(slide)` and then
`workflow.onlayoutclose(layout)`. When `fn` itself raises, the local
`layout` was never assigned, so the `finally` block performs
`loop.close(slide)` and then fails looking up `layout`
(NameError/UnboundLocalError in MicroPython/CPython) — the close
notification is not delivered on that path. The model is the trace of
the decorator's observable effects plus its outcome; `fn` is modelled
as the `Except` result of constructing the wrapped layout and `awaited`
as the result of awaiting it. -/

inductive LayoutEff (L : Type) where
  | fadeToDim
  | scheduleSlide
  | clearDisplay
  | closeSlide
  | onLayoutClose (l : L)

inductive LayoutOutcome (V E : Type) where
  | ok (v : V)
  | raised (e : E)
  | nameError

def layout {L V E : Type} (fn : Except E L) (awaited : L → Except E V) :
    List (LayoutEff L) × LayoutOutcome V E :=
  match fn with
  | .error _ => ([.fadeToDim, .closeSlide], .nameError)
  | .ok l =>
    match awaited l with
    | .ok v =>
      ([.fadeToDim, .scheduleSlide, .clearDisplay, .closeSlide, .onLayoutClose l],
        .ok v)
    | .error e =>
      ([.fadeToDim, .scheduleSlide, .clearDisplay, .closeSlide, .onLayoutClose l],
        .raised e)

def hasCloseSlide {L : Type} (tr : List (LayoutEff L)) : Bool :=
  tr.any fun e => match e with | .closeSlide => true | _ => false

def hasOnLayoutClose {L : Type} (tr : List (LayoutEff L)) : Bool :=
  tr.any fun e => match e with | .onLayoutClose _ => true | _ => false

/-! ## The grid layout helper (source lines 161-177)

Python `//` and `%` are floor division and floor modulo, i.e.
`Int.fdiv` and `Int.fmod`. The default view bounds `VIEWX = 6`,
`VIEWY = 9` and the display's `WIDTH`/`HEIGHT` (constants of the
external display adapter) only fix particular arguments, so the model
takes all bounds as parameters. -/

def grid (i n_x n_y start_x start_y end_x end_y cells_x cells_y spacing : ℤ) :
    ℤ × ℤ × ℤ × ℤ :=
  let w := Int.fdiv (end_x - start_x) n_x
  let h := Int.fdiv (end_y - start_y) n_y
  let x := (Int.fmod i n_x) * w
  let y := (Int.fdiv i n_x) * h
  (x + start_x, y + start_y, (w - spacing) * cells_x, (h - spacing) * cells_y)

/-- Membership of a point in a rectangle `(x, y, w, h)` read as the
half-open region `[x, x+w) × [y, y+h)` (the sense in which grid cells
tile the view). -/
def inRectHalfOpen (r : ℤ × ℤ × ℤ × ℤ) (px py : ℤ) : Bool :=
  decide (r.1 ≤ px) && decide (px < r.1 + r.2.2.1) &&
    decide (r.2.1 ≤ py) && decide (py < r.2.1 + r.2.2.2)

/-- Membership of a point in the half-open view rectangle
`[sx, ex) × [sy, ey)`. -/
def inViewRect (sx sy ex ey px py : ℤ) : Bool :=
  decide (sx ≤ px) && decide (px < ex) && decide (sy ≤ py) && decide (py < ey)

/-! ## The Widget iteration protocol (source lines 192-199)

Source `Widget.__iter__`: `while result is None: self.render(); event,
*pos = yield touch; result = self.touch(event, pos)`. The model runs
the loop against a list of incoming touch events (each an event code
with its positional payload) and a `touch` handler, recording the trace
of iteration steps: a render call, the suspension awaiting a touch, and
each call of the `touch` handler. When the events are exhausted the
widget has rendered once more and is suspended awaiting the next event. -/

inductive WStep where
  | render
  | awaitTouch
  | touchCall (event : ℤ) (pos : List ℤ)
deriving DecidableEq

def widgetRun {R : Type} (touch : ℤ → List ℤ → Option R) :
    List (ℤ × List ℤ) → List WStep × Option R
  | [] => ([.render, .awaitTouch], none)
  | e :: es =>
    match touch e.1 e.2 with
    | some r => ([.render, .awaitTouch, .touchCall e.1 e.2], some r)
    | none =>
      let rest := widgetRun touch es
      (.render :: .awaitTouch :: .touchCall e.1 e.2 :: rest.1, rest.2)

def headIsRender : List WStep → Bool
  | WStep.render :: _ => true
  | _ => false

/-- Every suspension awaiting a touch is immediately preceded by a
render call. -/
def adjOk : List WStep → Bool
  | a :: b :: rest =>
    (if b = WStep.awaitTouch then decide (a = WStep.render) else true) && adjOk (b :: rest)
  | _ => true

/-- Every call of the `touch` handler is preceded (anywhere earlier in
the trace) by at least one render call; `seen` records whether a render
has happened yet. -/
def touchSeenOk : Bool → List WStep → Bool
  | _, [] => true
  | _, WStep.render :: rest => touchSeenOk true rest
  | seen, WStep.touchCall _ _ :: rest => seen && touchSeenOk seen rest
  | seen, WStep.awaitTouch :: rest => touchSeenOk seen rest

def renderFirstOk (l : List WStep) : Bool :=
  headIsRender l && adjOk l && touchSeenOk false l

/-! ## Control dispatch and the Layout task pair (source lines 211-264)

`RENDER` and `REPAINT` are the source's constants. The touch event
codes come from the external `io` module. Modelled from the spec: the
spec fixes no numeric values for `io.TOUCH_START`/`TOUCH_MOVE`/
`TOUCH_END`, only that they are distinct event kinds, so the model
picks three distinct codes. -/

def RENDER : ℤ := -1234

def REPAINT : ℤ := -1235

def TOUCH_START : ℤ := 1

def TOUCH_MOVE : ℤ := 2

def TOUCH_END : ℤ := 4

/-- A `Control` subclass, given by its four virtual handlers. A handler
returning `some v` models the handler raising `Result(v)` (the source's
`Result` exception carrying `value`); `none` models a normal return.
(The source's `REPAINT` branch only sets a repaint flag and calls no
handler; no claim concerns that flag, so the model drops it and, like
the source, treats `REPAINT` and unrecognized events as dispatching to
no handler.) -/
structure ControlM (V : Type) where
  on_render : Option V
  on_touch_start : ℤ → ℤ → Option V
  on_touch_move : ℤ → ℤ → Option V
  on_touch_end : ℤ → ℤ → Option V

/-- Source `Control.dispatch(event, x, y)`. -/
def dispatch {V : Type} (c : ControlM V) (event x y : ℤ) : Option V :=
  if event = RENDER then c.on_render
  else if event = TOUCH_START then c.on_touch_start x y
  else if event = TOUCH_MOVE then c.on_touch_move x y
  else if event = TOUCH_END then c.on_touch_end x y
  else none

/-- One scheduling decision of the cooperative loop while a Layout
runs: either the render task's sleep fires (source `handle_rendering`
dispatches `RENDER, 0, 0` and suspends again), or a touch event
`(event, x, y)` arrives and the input task (source `handle_input`)
dispatches it. -/
inductive Tick where
  | render
  | touch (event x y : ℤ)

inductive LoopEff (V : Type) where
  | renderDispatch
  | inputDispatch (event x y : ℤ)
  | resultRaised (v : V)
  | cancelRenderTask
  | cancelInputTask

/-- Modelled from the spec: the scheduler's `loop.spawn` ("spawn all,
wait for first terminal signal, cancel the rest", §4.4/§6 — the loop
module itself is not among the staged sources). `layoutRun` drives
source `Layout.__iter__`, which awaits
`loop.spawn(handle_rendering(), handle_input())` and catches `Result`,
returning its value. Each `Tick` resumes the chosen task once; when a
dispatched handler raises `Result(v)`, the other task is cancelled
immediately and the Layout resolves to `v` — no later tick runs, so no
event is dispatched after the raise. An exhausted tick list leaves the
Layout still pending (`none`). -/
def layoutRun {V : Type} (c : ControlM V) : List Tick → List (LoopEff V) × Option V
  | [] => ([], none)
  | Tick.render :: ts =>
    match dispatch c RENDER 0 0 with
    | some v => ([.renderDispatch, .resultRaised v, .cancelInputTask], some v)
    | none =>
      let rest := layoutRun c ts
      (.renderDispatch :: rest.1, rest.2)
  | Tick.touch e x y :: ts =>
    match dispatch c e x y with
    | some v => ([.inputDispatch e x y, .resultRaised v, .cancelRenderTask], some v)
    | none =>
      let rest := layoutRun c ts
      (.inputDispatch e x y :: rest.1, rest.2)

def isResultRaised {V : Type} : LoopEff V → Bool
  | .resultRaised _ => true
  | _ => false

def isRenderDispatch {V : Type} : LoopEff V → Bool
  | .renderDispatch => true
  | _ => false

/-- After the first raised Result in a trace, no RENDER event is
dispatched to the Control. -/
def noRenderAfterResult {V : Type} (tr : List (LoopEff V)) : Bool :=
  ((tr.dropWhile fun e => !isResultRaised e).drop 1).all fun e => !isRenderDispatch e

/-- The end-to-end Layout of the spec's §8 test: a Control whose
`on_touch_end` immediately raises `Result(42)` and whose other handlers
return normally. -/
def testControl : ControlM ℤ where
  on_render := none
  on_touch_start := fun _ _ => none
  on_touch_move := fun _ _ => none
  on_touch_end := fun _ _ => some 42

/-- A schedule for the §8 test: two render ticks, the touch-end event,
and two more render ticks that must never be served. -/
def testSchedule : List Tick :=
  [Tick.render, Tick.render, Tick.touch TOUCH_END 120 200, Tick.render, Tick.render]

/-! ## Theorems -/

/-- Helper: the length of an empty Python range. -/
theorem pyRangeLen_self (a step : ℤ) : pyRangeLen a a step = 0 := by
  unfold pyRangeLen
  split_ifs with h1 h2
  · simp only [sub_self, Int.toNat_zero, zero_add]
    exact Nat.div_eq_of_lt (by omega)
  · simp only [sub_self, Int.toNat_zero, zero_add]
    exact Nat.div_eq_of_lt (by omega)
  · rfl

/-- C4 (amended): `rotate` at orientation 0° and at 180° is an
involution; applying `rotate` once at each orientation of the sequence
0°, 90°, 180°, 270° sends `p = (x, y)` to `(WIDTH - x, WIDTH - y)`, the
central reflection — not back to `p`; applying `rotate` four times at
the single orientation 90° does return `p`. -/
theorem rotate_involution_and_cycle (W H : ℤ) (p : ℤ × ℤ) :
    (rotate W H 0 p >>= rotate W H 0) = some p ∧
    (rotate W H 180 p >>= rotate W H 180) = some p ∧
    fourCycleSeq W H p = some (W - p.1, W - p.2) ∧
    (rotate W H 90 p >>= rotate W H 90 >>= rotate W H 90 >>= rotate W H 90) = some p := by
  refine ⟨?_, ?_, ?_, ?_⟩ <;>
    simp [rotate, fourCycleSeq, Prod.ext_iff]

/-- C4 (counterexample): at display dimensions 240 × 240 (the device's
actual square display; any positive width behaves the same, see
`rotate_involution_and_cycle`), the 0°-90°-180°-270° sequence maps
`(0, 0)` to `(240, 240)`, which differs from `(0, 0)` — the sequence
does not return the point to itself. -/
theorem rotate_cycle_counterexample :
    fourCycleSeq 240 240 (0, 0) = some (240, 240) ∧
    decide ((((240 : ℤ), (240 : ℤ)) : ℤ × ℤ) = ((0, 0) : ℤ × ℤ)) = false := by
  constructor
  · rfl
  · rfl

/-- C5: for every orientation value outside {0, 90, 180, 270}, the
source's `rotate` falls through all branches and returns Python `None`
(no `InvalidOrientation` error is raised — the spec's §9 latent bug). -/
theorem rotate_unknown_orientation (W H r x y : ℤ)
    (h0 : r ≠ 0) (h90 : r ≠ 90) (h180 : r ≠ 180) (h270 : r ≠ 270) :
    rotate W H r (x, y) = none := by
  simp [rotate, h0, h90, h180, h270]

/-- C5 (witness): the failure at the concrete input orientation 45,
point (10, 20). -/
theorem rotate_unknown_orientation_witness : rotate 240 240 45 (10, 20) = none :=
  rotate_unknown_orientation 240 240 45 10 20 (by decide) (by decide) (by decide)
    (by decide)

/-- C9 (amended): the `layout` decorator's cleanup block always cancels
the scheduled background fade (`loop.close(slide)` runs on every exit
path); when the wrapped layout was successfully constructed, the trace
ends with the close notification for it, whatever awaiting it produced —
but when constructing the wrapped layout itself fails, the close
notification is never delivered: the `finally` block reads the unbound
local `layout` and the decorator ends in a NameError. -/
theorem layout_cleanup {L V E : Type} (fn : Except E L) (awaited : L → Except E V) :
    hasCloseSlide (layout fn awaited).1 = true ∧
    (match fn with
      | .ok l => (layout fn awaited).1.getLast? = some (LayoutEff.onLayoutClose l)
      | .error _ =>
        hasOnLayoutClose (layout fn awaited).1 = false ∧
          (layout fn awaited).2 = LayoutOutcome.nameError) := by
  cases fn with
  | error e => exact ⟨rfl, rfl, rfl⟩
  | ok l =>
    cases h : awaited l with
    | ok v => simp [layout, h, hasCloseSlide]
    | error e => simp [layout, h, hasCloseSlide]

/-- C9 (counterexample): when constructing the wrapped layout fails, the
cleanup still cancels the fade task, but the layout-closed notification
does not happen — the decorator ends in a NameError instead. -/
theorem layout_fn_failure_counterexample :
    hasOnLayoutClose (layout (L := Unit) (V := Unit) (E := Unit)
      (.error ()) (fun _ => .ok ())).1 = false ∧
    hasCloseSlide (layout (L := Unit) (V := Unit) (E := Unit)
      (.error ()) (fun _ => .ok ())).1 = true ∧
    (layout (L := Unit) (V := Unit) (E := Unit)
      (.error ()) (fun _ => .ok ())).2 = LayoutOutcome.nameError := by
  exact ⟨rfl, rfl, rfl⟩

/-- C10: when the current backlight level already equals the target,
both `backlight_slide` and `backlight_slide_sync` iterate over the empty
range: no backlight write occurs and the level is left unchanged. -/
theorem backlight_slide_already_at_target (current step : ℤ) :
    backlight_slide current current step = [] ∧
    backlight_slide_sync current current step = [] ∧
    finalBacklight current (backlight_slide current current step) = current ∧
    finalBacklight current (backlight_slide_sync current current step) = current := by
  have h : ∀ s : ℤ, pyRange current current s = [] := fun s => by
    simp [pyRange, pyRangeLen_self]
  refine ⟨h _, h _, ?_, ?_⟩ <;>
    simp [backlight_slide, backlight_slide_sync, finalBacklight, h]

/-- Helper: the loop body of `alert` pairs up into `count` full blink
cycles (maximum, short sleep, normal, long sleep). -/
theorem alert_core (m n : ℤ) (k : ℕ) :
    ((List.range (k * 2)).flatMap fun i =>
      if i % 2 = 0 then [AlertEv.setBacklight m, AlertEv.sleepUs 20000]
      else [AlertEv.setBacklight n, AlertEv.sleepUs 80000])
    = (List.range k).flatMap fun _ =>
        [AlertEv.setBacklight m, AlertEv.sleepUs 20000,
          AlertEv.setBacklight n, AlertEv.sleepUs 80000] := by
  induction k with
  | zero => rfl
  | succ k ih =>
    have e1 : (k + 1) * 2 = (k * 2 + 1) + 1 := by ring
    have h0 : (k * 2) % 2 = 0 := by omega
    have h1 : (k * 2 + 1) % 2 = 1 := by omega
    rw [e1, List.range_succ, List.range_succ, List.range_succ]
    simp [h0, h1, ih]

/-- Helper: counting occurrences in a constant flatMap. -/
theorem count_flatMap_const {α : Type} (l : List α) (b : List AlertEv) (x : AlertEv) :
    (l.flatMap fun _ => b).count x = l.length * b.count x := by
  induction l with
  | nil => simp
  | cons a t ih => simp [List.count_append, ih, Nat.succ_mul, Nat.add_comm]

/-- C6: `alert(count)` is `count` full blink cycles — each setting the
backlight to maximum before yielding the short (20000 µs) sleep and to
normal before yielding the long (80000 µs) sleep — followed by a write
restoring the level read at entry; replaying the trace from any level
ends at `current` (the entry read), each run schedules `count` short and
`count` long sleeps, and `count = 3` schedules exactly six sleeps. -/
theorem alert_restores_backlight (maxB normB current b : ℤ) (count : ℕ) :
    alert maxB normB current count
      = ((List.range count).flatMap fun _ =>
          [AlertEv.setBacklight maxB, AlertEv.sleepUs 20000,
            AlertEv.setBacklight normB, AlertEv.sleepUs 80000])
        ++ [AlertEv.setBacklight current] ∧
    runBacklight b (alert maxB normB current count) = current ∧
    (alert maxB normB current count).count (AlertEv.sleepUs 20000) = count ∧
    (alert maxB normB current count).count (AlertEv.sleepUs 80000) = count ∧
    (alert maxB normB current 3).countP isSleepEv = 6 := by
  have hstruct : alert maxB normB current count
      = ((List.range count).flatMap fun _ =>
          [AlertEv.setBacklight maxB, AlertEv.sleepUs 20000,
            AlertEv.setBacklight normB, AlertEv.sleepUs 80000])
        ++ [AlertEv.setBacklight current] := by
    unfold alert
    rw [alert_core]
  refine ⟨hstruct, ?_, ?_, ?_, ?_⟩
  · unfold runBacklight alert
    rw [List.foldl_append]
    rfl
  · rw [hstruct, List.count_append, count_flatMap_const]
    simp [List.count_cons]
  · rw [hstruct, List.count_append, count_flatMap_const]
    simp [List.count_cons]
  · rfl

/-- Helper: a trace that passes the render-seen scan starting
pessimistically also passes it starting optimistically. -/
theorem touchSeenOk_mono (l : List WStep) (h : touchSeenOk false l = true) :
    touchSeenOk true l = true := by
  induction l with
  | nil => rfl
  | cons a t ih =>
    cases a with
    | render => simpa [touchSeenOk] using h
    | awaitTouch =>
      rw [touchSeenOk] at h ⊢
      exact ih h
    | touchCall e p => simp [touchSeenOk] at h

/-- Helper: every widget trace begins with a render call followed by the
suspension awaiting a touch. -/
theorem widgetRun_head {R : Type} (touch : ℤ → List ℤ → Option R)
    (es : List (ℤ × List ℤ)) :
    ∃ t, (widgetRun touch es).1 = WStep.render :: WStep.awaitTouch :: t := by
  cases es with
  | nil => exact ⟨[], rfl⟩
  | cons e es =>
    cases h : touch e.1 e.2 with
    | some r => exact ⟨[WStep.touchCall e.1 e.2], by simp [widgetRun, h]⟩
    | none =>
      exact ⟨WStep.touchCall e.1 e.2 :: (widgetRun touch es).1, by simp [widgetRun, h]⟩

/-- C2: for every Widget (any `touch` handler) driven through its
iteration protocol on any incoming event sequence, the trace starts with
a render call, every suspension that waits for the next touch event is
immediately preceded by a render call within its iteration, and every
call of the `touch` handler is preceded by at least one render call. -/
theorem widget_render_before_touch {R : Type} (touch : ℤ → List ℤ → Option R)
    (es : List (ℤ × List ℤ)) :
    renderFirstOk (widgetRun touch es).1 = true := by
  induction es with
  | nil => rfl
  | cons e es ih =>
    cases h : touch e.1 e.2 with
    | some r =>
      simp [widgetRun, h, renderFirstOk, headIsRender, adjOk, touchSeenOk]
    | none =>
      obtain ⟨t, ht⟩ := widgetRun_head touch es
      rw [renderFirstOk, Bool.and_eq_true, Bool.and_eq_true] at ih
      obtain ⟨⟨-, hadj⟩, hseen⟩ := ih
      have hseen' := touchSeenOk_mono _ hseen
      rw [renderFirstOk]
      simp only [widgetRun, h]
      rw [ht] at hadj hseen' ⊢
      rw [adjOk, Bool.and_eq_true] at hadj
      simp only [touchSeenOk] at hseen'
      simp only [headIsRender, adjOk, touchSeenOk]
      simp [hadj.2, hseen']

/-- Helper: dispatching RENDER routes to the `on_render` handler. -/
theorem dispatch_RENDER {V : Type} (c : ControlM V) :
    dispatch c RENDER 0 0 = c.on_render := by
  simp [dispatch]

/-- Helper: dropping a prefix that wholly satisfies the predicate. -/
theorem dropWhile_append_of_all {α : Type} (p : α → Bool) (l1 l2 : List α)
    (h : ∀ e ∈ l1, p e = true) :
    (l1 ++ l2).dropWhile p = l2.dropWhile p := by
  induction l1 with
  | nil => rfl
  | cons a rest ih =>
    rw [List.cons_append, List.dropWhile_cons]
    rw [h a (by simp)]
    exact ih fun e he => h e (by simp [he])

/-- Helper: when a layout run resolves, its trace is a prefix of
ordinary dispatches followed by exactly the raised Result and the
cancellation of the render task. -/
theorem layoutRun_result_struct {V : Type} (c : ControlM V) (hR : c.on_render = none)
    (ts : List Tick) : ∀ v : V, (layoutRun c ts).2 = some v →
      ∃ pre, (layoutRun c ts).1
          = pre ++ [LoopEff.resultRaised v, LoopEff.cancelRenderTask] ∧
        ∀ e ∈ pre, isResultRaised e = false := by
  induction ts with
  | nil => intro v h; simp [layoutRun] at h
  | cons tk ts ih =>
    intro v h
    cases tk with
    | render =>
      have hd : dispatch c RENDER 0 0 = none := by rw [dispatch_RENDER, hR]
      simp only [layoutRun, hd] at h ⊢
      obtain ⟨pre, hpre, hnone⟩ := ih v h
      refine ⟨.renderDispatch :: pre, by simp [hpre], ?_⟩
      intro e he
      rcases List.mem_cons.mp he with rfl | hmem
      · rfl
      · exact hnone e hmem
    | touch e x y =>
      cases hdx : dispatch c e x y with
      | some w =>
        simp only [layoutRun, hdx] at h ⊢
        obtain rfl : w = v := by injection h
        exact ⟨[.inputDispatch e x y], rfl, by intro f hf; simp at hf; rw [hf]; rfl⟩
      | none =>
        simp only [layoutRun, hdx] at h ⊢
        obtain ⟨pre, hpre, hnone⟩ := ih v h
        refine ⟨.inputDispatch e x y :: pre, by simp [hpre], ?_⟩
        intro f hf
        rcases List.mem_cons.mp hf with rfl | hmem
        · rfl
        · exact hnone f hmem

/-- C1: for every Layout whose render handler does not itself raise (so
a Result can only come from the dispatched input handler), whenever the
run resolves to `v` the trace ends with exactly the raised `Result(v)`
followed by the cancellation of the render task, and after the Result no
further RENDER event is dispatched to the Control. -/
theorem layout_result_cancels_render {V : Type} (c : ControlM V) (ts : List Tick)
    (v : V) (hR : c.on_render = none) (hres : (layoutRun c ts).2 = some v) :
    (layoutRun c ts).1.drop ((layoutRun c ts).1.length - 2)
      = [LoopEff.resultRaised v, LoopEff.cancelRenderTask] ∧
    noRenderAfterResult (layoutRun c ts).1 = true := by
  obtain ⟨pre, hpre, hnone⟩ := layoutRun_result_struct c hR ts v hres
  constructor
  · rw [hpre, List.length_append]
    have : pre.length + [LoopEff.resultRaised v, LoopEff.cancelRenderTask].length - 2
        = pre.length := by simp
    rw [this, List.drop_left]
  · rw [noRenderAfterResult, hpre]
    rw [dropWhile_append_of_all _ pre _ fun e he => by rw [hnone e he]; rfl]
    rfl

/-- C1 (witness): the spec's §8 end-to-end Layout — `on_touch_end`
raises `Result(42)` — run on a schedule with render ticks after the
touch: it resolves to 42, the trace ends with the raised Result and the
render-task cancellation, and no RENDER dispatch follows the Result. -/
theorem layout_result_cancels_render_witness :
    (layoutRun testControl testSchedule).1.drop
        ((layoutRun testControl testSchedule).1.length - 2)
      = [LoopEff.resultRaised 42, LoopEff.cancelRenderTask] ∧
    noRenderAfterResult (layoutRun testControl testSchedule).1 = true :=
  layout_result_cancels_render testControl testSchedule 42 rfl rfl

/-- Helper: a strictly pairwise-increasing list passes the adjacent
strict-increase scan. -/
theorem strictIncr_of_pairwise : ∀ l : List ℤ, l.Pairwise (· < ·) → strictIncr l = true
  | [], _ => rfl
  | [_], _ => rfl
  | a :: b :: rest, h => by
    rw [strictIncr, Bool.and_eq_true]
    have h1 := List.pairwise_cons.mp h
    exact ⟨decide_eq_true (h1.1 b (by simp)), strictIncr_of_pairwise (b :: rest) h1.2⟩

/-- Helper: an upward `backlight_slide` is the affine image of
`List.range`, with the Python-range length made explicit. -/
theorem backlight_slide_up (current : ℤ) (d s : ℕ) (hd : 1 ≤ d) (hs : 1 ≤ s) :
    backlight_slide current (current + (d : ℤ)) (s : ℤ)
      = (List.range ((d - 1) / s + 1)).map fun k : ℕ => current + (k : ℤ) * (s : ℤ) := by
  unfold backlight_slide pyRange
  have hif : (if current > current + (d : ℤ) then -(s : ℤ) else (s : ℤ)) = (s : ℤ) :=
    if_neg (by omega)
  rw [hif]
  have hlen : pyRangeLen current (current + (d : ℤ)) (s : ℤ) = (d - 1) / s + 1 := by
    unfold pyRangeLen
    rw [if_pos (by omega : (0 : ℤ) < (s : ℤ))]
    have h1 : ((current + (d : ℤ) - current).toNat) = d := by omega
    have h2 : ((s : ℤ)).toNat = s := by omega
    rw [h1, h2]
    have he : d + (s - 1) = (d - 1) + s := by omega
    rw [he, Nat.add_div_right _ (by omega)]
  rw [hlen]

/-- C7: for every starting backlight level strictly below the target
and positive step, `backlight_slide` emits a non-empty, monotonically
increasing sequence of backlight values, all strictly below the target
(in particular the exact target value is never emitted), and the last
emitted value is strictly less than the target by at most `step`. -/
theorem backlight_slide_monotone_below_target (current val step : ℤ)
    (hlt : current < val) (hstep : 0 < step) :
    strictIncr (backlight_slide current val step) = true ∧
    ((backlight_slide current val step).all fun x => decide (x < val)) = true ∧
    backlight_slide current val step ≠ [] ∧
    ((backlight_slide current val step).all fun x => !(x == val)) = true ∧
    val - finalBacklight current (backlight_slide current val step) ≤ step ∧
    finalBacklight current (backlight_slide current val step) < val := by
  obtain ⟨s, hs1, rfl⟩ : ∃ s : ℕ, 1 ≤ s ∧ step = (s : ℤ) :=
    ⟨step.toNat, by omega, by omega⟩
  obtain ⟨d, hd1, rfl⟩ : ∃ d : ℕ, 1 ≤ d ∧ val = current + (d : ℤ) :=
    ⟨(val - current).toNat, by omega, by omega⟩
  have hlist := backlight_slide_up current d s hd1 hs1
  have hbound : ∀ k : ℕ, k < (d - 1) / s + 1 → (k : ℤ) * (s : ℤ) < (d : ℤ) := by
    intro k hk
    have h1 : k * s ≤ (d - 1) / s * s := Nat.mul_le_mul_right s (by omega)
    have h2 : (d - 1) / s * s ≤ d - 1 := Nat.div_mul_le_self _ _
    have h3 : k * s < d := by omega
    exact_mod_cast h3
  refine ⟨?_, ?_, ?_, ?_, ?_, ?_⟩
  · rw [hlist]
    refine strictIncr_of_pairwise _ (List.Pairwise.map _ ?_ (List.pairwise_lt_range _))
    intro a b hab
    have : (a : ℤ) * (s : ℤ) < (b : ℤ) * (s : ℤ) := by
      apply mul_lt_mul_of_pos_right _ (by omega : (0 : ℤ) < (s : ℤ))
      exact_mod_cast hab
    omega
  · rw [hlist, List.all_eq_true]
    intro x hx
    obtain ⟨k, hk, rfl⟩ := List.mem_map.mp hx
    exact decide_eq_true (by have := hbound k (List.mem_range.mp hk); omega)
  · rw [hlist]
    intro hemp
    rw [List.map_eq_nil_iff] at hemp
    have := congrArg List.length hemp
    simp at this
  · rw [hlist, List.all_eq_true]
    intro x hx
    obtain ⟨k, hk, rfl⟩ := List.mem_map.mp hx
    rw [Bool.not_eq_eq_eq_not, Bool.not_true, beq_eq_false_iff_ne]
    have := hbound k (List.mem_range.mp hk)
    omega
  · have hlast : finalBacklight current (backlight_slide current (current + (d : ℤ)) (s : ℤ))
        = current + ((d - 1) / s : ℕ) * (s : ℤ) := by
      rw [hlist, finalBacklight, List.range_succ, List.map_append, List.map_singleton,
        List.getLastD_concat]
    rw [hlast]
    have hlt2 : d - 1 < (d - 1) / s * s + s := Nat.lt_div_mul_add (by omega)
    have : (d : ℤ) ≤ ((d - 1) / s * s : ℕ) + (s : ℕ) := by
      have : d ≤ (d - 1) / s * s + s := by omega
      exact_mod_cast this
    push_cast at this ⊢
    linarith
  · have hlast : finalBacklight current (backlight_slide current (current + (d : ℤ)) (s : ℤ))
        = current + ((d - 1) / s : ℕ) * (s : ℤ) := by
      rw [hlist, finalBacklight, List.range_succ, List.map_append, List.map_singleton,
        List.getLastD_concat]
    rw [hlast]
    have h2 : (d - 1) / s * s ≤ d - 1 := Nat.div_mul_le_self _ _
    have : ((d - 1) / s * s : ℕ) < (d : ℤ) := by exact_mod_cast (by omega : (d - 1) / s * s < d)
    push_cast at this ⊢
    linarith

/-- C7 (witness): sliding from level 5 up to target 150 in steps of 20
(the spec's dim-to-normal example shape): the emitted sequence is
non-empty, strictly increasing, stays strictly below 150, never contains
150, and its last value 145 is within one step of the target. -/
theorem backlight_slide_monotone_below_target_witness :
    strictIncr (backlight_slide 5 150 20) = true ∧
    ((backlight_slide 5 150 20).all fun x => decide (x < 150)) = true ∧
    backlight_slide 5 150 20 ≠ [] ∧
    ((backlight_slide 5 150 20).all fun x => !(x == 150)) = true ∧
    (150 : ℤ) - finalBacklight 5 (backlight_slide 5 150 20) ≤ 20 ∧
    finalBacklight 5 (backlight_slide 5 150 20) < 150 :=
  backlight_slide_monotone_below_target 5 150 20 (by decide) (by decide)

/-- Helper: with non-negative cell counts, the `cells_x = cells_y = 1`,
`spacing = 0` grid cell has the affine closed form (Python `//` and `%`
agree with Euclidean division for non-negative divisors). -/
theorem grid_cell (i n_x n_y sx sy ex ey : ℤ) (hx : 0 ≤ n_x) (hy : 0 ≤ n_y) :
    grid i n_x n_y sx sy ex ey 1 1 0
      = ((i % n_x) * ((ex - sx) / n_x) + sx, (i / n_x) * ((ey - sy) / n_y) + sy,
          (ex - sx) / n_x, (ey - sy) / n_y) := by
  unfold grid
  rw [Int.fmod_eq_emod _ hx, Int.fdiv_eq_ediv _ hx, Int.fdiv_eq_ediv _ hx,
    Int.fdiv_eq_ediv _ hy]
  simp [sub_zero, mul_one]

/-- Helper: membership in a grid cell, unfolded to its column and row
intervals. -/
theorem mem_grid_cell (i n_x n_y sx sy ex ey px py : ℤ) (hx : 0 ≤ n_x) (hy : 0 ≤ n_y) :
    inRectHalfOpen (grid i n_x n_y sx sy ex ey 1 1 0) px py = true
      ↔ ((i % n_x) * ((ex - sx) / n_x) + sx ≤ px
          ∧ px < (i % n_x) * ((ex - sx) / n_x) + sx + (ex - sx) / n_x
          ∧ (i / n_x) * ((ey - sy) / n_y) + sy ≤ py
          ∧ py < (i / n_x) * ((ey - sy) / n_y) + sy + (ey - sy) / n_y) := by
  rw [grid_cell i n_x n_y sx sy ex ey hx hy]
  simp [inRectHalfOpen, and_assoc]

/-- Helper: a value sitting in the `c`-th length-`w` interval determines
its Euclidean quotient by `w`. -/
theorem ediv_eq_of_bounds {w c a : ℤ} (hw : 0 < w) (h1 : c * w ≤ a)
    (h2 : a < (c + 1) * w) : a / w = c := by
  have h3 : (a - c * w) + w * c = a := by ring
  have h4 : 0 ≤ a - c * w := by linarith
  have h5 : a - c * w < w := by nlinarith
  exact ((Int.ediv_emod_unique hw).mpr ⟨h3, h4, h5⟩).1

/-- Helper: the interval bounds of the Euclidean quotient. -/
theorem bounds_of_ediv {w : ℤ} (a : ℤ) (hw : 0 < w) :
    (a / w) * w ≤ a ∧ a < (a / w + 1) * w := by
  have h1 := Int.emod_nonneg a (ne_of_gt hw)
  have h2 := Int.emod_lt_of_pos a hw
  have h3 := Int.ediv_add_emod a w
  constructor <;> nlinarith

/-- Helper: row-major index decomposition: `r * n_x + c` has column `c`
and row `r` when `0 ≤ c < n_x`. -/
theorem index_decomp (n_x r c : ℤ) (hx : 0 < n_x) (hc0 : 0 ≤ c) (hc : c < n_x) :
    (r * n_x + c) % n_x = c ∧ (r * n_x + c) / n_x = r := by
  have he : r * n_x + c = c + r * n_x := by ring
  constructor
  · rw [he, Int.add_mul_emod_self, Int.emod_eq_of_lt hc0 hc]
  · rw [he, Int.add_mul_ediv_right _ _ (ne_of_gt hx), Int.ediv_eq_zero_of_lt hc0 hc,
      zero_add]

/-- Helper: the grid cell in its raw floor-division form, with no sign
conditions on any argument. -/
theorem grid_fdiv_cell (i n_x n_y sx sy ex ey : ℤ) :
    grid i n_x n_y sx sy ex ey 1 1 0
      = ((i.fmod n_x) * ((ex - sx).fdiv n_x) + sx,
          (i.fdiv n_x) * ((ey - sy).fdiv n_y) + sy,
          (ex - sx).fdiv n_x, (ey - sy).fdiv n_y) := by
  unfold grid
  simp

/-- Helper: membership in a grid cell, unfolded to its column and row
intervals in raw floor-division form, with no side conditions. -/
theorem mem_grid_cell_fdiv (i n_x n_y sx sy ex ey px py : ℤ) :
    inRectHalfOpen (grid i n_x n_y sx sy ex ey 1 1 0) px py = true
      ↔ ((i.fmod n_x) * ((ex - sx).fdiv n_x) + sx ≤ px
          ∧ px < (i.fmod n_x) * ((ex - sx).fdiv n_x) + sx + (ex - sx).fdiv n_x
          ∧ (i.fdiv n_x) * ((ey - sy).fdiv n_y) + sy ≤ py
          ∧ py < (i.fdiv n_x) * ((ey - sy).fdiv n_y) + sy + (ey - sy).fdiv n_y) := by
  rw [grid_fdiv_cell i n_x n_y sx sy ex ey]
  simp [inRectHalfOpen, and_assoc]

/-- Helper: no point lies in two distinct cells of the grid — for every
view rectangle and every cell counts, with no divisibility or sign
conditions: a point inside a cell forces that cell's width and height to
be positive, and then the point determines its column and row uniquely. -/
theorem grid_cells_disjoint (n_x n_y sx sy ex ey i j px py : ℤ) (hne : i ≠ j) :
    ¬(inRectHalfOpen (grid i n_x n_y sx sy ex ey 1 1 0) px py = true
      ∧ inRectHalfOpen (grid j n_x n_y sx sy ex ey 1 1 0) px py = true) := by
  rintro ⟨hmi, hmj⟩
  rw [mem_grid_cell_fdiv i n_x n_y sx sy ex ey px py] at hmi
  rw [mem_grid_cell_fdiv j n_x n_y sx sy ex ey px py] at hmj
  have hw0 : 0 < (ex - sx).fdiv n_x := by linarith [hmi.1, hmi.2.1]
  have hh0 : 0 < (ey - sy).fdiv n_y := by linarith [hmi.2.2.1, hmi.2.2.2]
  have hci : (px - sx) / ((ex - sx).fdiv n_x) = i.fmod n_x :=
    ediv_eq_of_bounds hw0 (by linarith [hmi.1]) (by nlinarith [hmi.2.1])
  have hcj : (px - sx) / ((ex - sx).fdiv n_x) = j.fmod n_x :=
    ediv_eq_of_bounds hw0 (by linarith [hmj.1]) (by nlinarith [hmj.2.1])
  have hri : (py - sy) / ((ey - sy).fdiv n_y) = i.fdiv n_x :=
    ediv_eq_of_bounds hh0 (by linarith [hmi.2.2.1]) (by nlinarith [hmi.2.2.2])
  have hrj : (py - sy) / ((ey - sy).fdiv n_y) = j.fdiv n_x :=
    ediv_eq_of_bounds hh0 (by linarith [hmj.2.2.1]) (by nlinarith [hmj.2.2.2])
  have hdi := Int.fdiv_add_fmod i n_x
  have hdj := Int.fdiv_add_fmod j n_x
  have hq : i.fdiv n_x = j.fdiv n_x := hri.symm.trans hrj
  have hr : i.fmod n_x = j.fmod n_x := hci.symm.trans hcj
  exact hne (by rw [← hdi, ← hdj, hq, hr])

/-- Helper: the grid cells with indices in `[0, n_x * n_y)` cover exactly
the view rectangle when the cell counts divide the view dimensions. -/
theorem grid_cells_cover (n_x n_y sx sy ex ey px py : ℤ)
    (hx : 0 < n_x) (hy : 0 < n_y) (hdx : n_x ∣ ex - sx) (hdy : n_y ∣ ey - sy)
    (hex : 0 < ex - sx) (hey : 0 < ey - sy) :
    inViewRect sx sy ex ey px py = true
      ↔ ∃ k, 0 ≤ k ∧ k < n_x * n_y
          ∧ inRectHalfOpen (grid k n_x n_y sx sy ex ey 1 1 0) px py = true := by
  have hw0 : 0 < (ex - sx) / n_x := by
    have h := Int.mul_ediv_cancel' hdx
    nlinarith
  have hh0 : 0 < (ey - sy) / n_y := by
    have h := Int.mul_ediv_cancel' hdy
    nlinarith
  have hwx := Int.mul_ediv_cancel' hdx
  have hhy := Int.mul_ediv_cancel' hdy
  simp only [inViewRect, Bool.and_eq_true, decide_eq_true_eq, and_assoc]
  constructor
  · rintro ⟨h1, h2, h3, h4⟩
    have hc0 : 0 ≤ (px - sx) / ((ex - sx) / n_x) := Int.ediv_nonneg (by linarith) hw0.le
    have hr0 : 0 ≤ (py - sy) / ((ey - sy) / n_y) := Int.ediv_nonneg (by linarith) hh0.le
    have hcx : (px - sx) / ((ex - sx) / n_x) < n_x := by
      rw [Int.ediv_lt_iff_lt_mul hw0]
      nlinarith
    have hry : (py - sy) / ((ey - sy) / n_y) < n_y := by
      rw [Int.ediv_lt_iff_lt_mul hh0]
      nlinarith
    refine ⟨((py - sy) / ((ey - sy) / n_y)) * n_x + (px - sx) / ((ex - sx) / n_x),
      by positivity, ?_, ?_⟩
    · nlinarith
    · rw [mem_grid_cell _ n_x n_y sx sy ex ey px py hx.le hy.le]
      obtain ⟨hm, hd⟩ := index_decomp n_x ((py - sy) / ((ey - sy) / n_y))
        ((px - sx) / ((ex - sx) / n_x)) hx hc0 hcx
      rw [hm, hd]
      obtain ⟨hb1, hb2⟩ := bounds_of_ediv (px - sx) hw0
      obtain ⟨hb3, hb4⟩ := bounds_of_ediv (py - sy) hh0
      refine ⟨by linarith, by nlinarith, by linarith, by nlinarith⟩
  · rintro ⟨k, hk0, hklt, hmem⟩
    rw [mem_grid_cell k n_x n_y sx sy ex ey px py hx.le hy.le] at hmem
    obtain ⟨h1, h2, h3, h4⟩ := hmem
    have hc0 : 0 ≤ k % n_x := Int.emod_nonneg k (ne_of_gt hx)
    have hcx : k % n_x < n_x := Int.emod_lt_of_pos k hx
    have hr0 : 0 ≤ k / n_x := Int.ediv_nonneg hk0 hx.le
    have hry : k / n_x < n_y := by
      rw [Int.ediv_lt_iff_lt_mul hx]
      nlinarith
    have hcb : (k % n_x + 1) * ((ex - sx) / n_x) ≤ n_x * ((ex - sx) / n_x) := by
      have : k % n_x + 1 ≤ n_x := by omega
      nlinarith
    have hrb : (k / n_x + 1) * ((ey - sy) / n_y) ≤ n_y * ((ey - sy) / n_y) := by
      have : k / n_x + 1 ≤ n_y := by omega
      nlinarith
    refine ⟨by nlinarith, by nlinarith, by nlinarith, by nlinarith⟩

/-- C3 (amended): distinct cells of the `n_x × n_y` grid (with
`cells_x = cells_y = 1`, `spacing = 0`) never share a point, for every
view rectangle — divisible or not; and for positive cell counts that
divide the positive view dimensions, a point lies in the half-open view
rectangle exactly when some in-range cell contains it, so the grid
partitions the view. Without the divisibility hypotheses the union
falls short of the view (integer division discards the remainder strip
— see `grid_not_partition_counterexample`). -/
theorem grid_partitions_view (n_x n_y sx sy ex ey i j px py : ℤ) :
    (i ≠ j →
      ¬(inRectHalfOpen (grid i n_x n_y sx sy ex ey 1 1 0) px py = true
        ∧ inRectHalfOpen (grid j n_x n_y sx sy ex ey 1 1 0) px py = true)) ∧
    (0 < n_x → 0 < n_y → n_x ∣ ex - sx → n_y ∣ ey - sy →
      0 < ex - sx → 0 < ey - sy →
      (inViewRect sx sy ex ey px py = true
        ↔ ∃ k, 0 ≤ k ∧ k < n_x * n_y
            ∧ inRectHalfOpen (grid k n_x n_y sx sy ex ey 1 1 0) px py = true)) :=
  ⟨fun hne => grid_cells_disjoint n_x n_y sx sy ex ey i j px py hne,
    fun hx hy hdx hdy hex hey =>
      grid_cells_cover n_x n_y sx sy ex ey px py hx hy hdx hdy hex hey⟩

/-- C3 (witness): over the non-divisible view `[0,3) × [0,7)` cells 0
and 1 are disjoint at the point (0, 5) — disjointness needs no
divisibility — and over the divisible view `[0,3) × [0,5)` the point
(1, 2) of the view is covered by some cell. -/
theorem grid_partitions_view_witness :
    (¬(inRectHalfOpen (grid 0 3 5 0 0 3 7 1 1 0) 0 5 = true
        ∧ inRectHalfOpen (grid 1 3 5 0 0 3 7 1 1 0) 0 5 = true)) ∧
    (inViewRect 0 0 3 5 1 2 = true
      ↔ ∃ k, 0 ≤ k ∧ k < (3 : ℤ) * 5
          ∧ inRectHalfOpen (grid k 3 5 0 0 3 5 1 1 0) 1 2 = true) :=
  ⟨(grid_partitions_view 3 5 0 0 3 7 0 1 0 5).1 (by norm_num),
    (grid_partitions_view 3 5 0 0 3 5 0 1 1 2).2 (by norm_num) (by norm_num)
      (by norm_num) (by norm_num) (by norm_num) (by norm_num)⟩

/-- C3 (counterexample): a grid does not always partition its view
rectangle: for the 3 × 5 grid over the view `[0,3) × [0,7)` (height 7
not divisible by 5, cell height `7 // 5 = 1`) the point (0, 5) lies in
the view but in none of the 15 cells; likewise, over the default view of
a 240 × 240 display (`[6,234) × [9,231)`, the device's actual
dimensions; height 222 not divisible by 5) the point (6, 230) lies in
the view but in none of the 15 cells. -/
theorem grid_not_partition_counterexample :
    ((List.range 15).all fun k =>
      !(inRectHalfOpen (grid (k : ℤ) 3 5 0 0 3 7 1 1 0) 0 5)) = true ∧
    inViewRect 0 0 3 7 0 5 = true ∧
    ((List.range 15).all fun k =>
      !(inRectHalfOpen (grid (k : ℤ) 3 5 6 9 234 231 1 1 0) 6 230)) = true ∧
    inViewRect 6 9 234 231 6 230 = true := by
  refine ⟨?_, rfl, ?_, rfl⟩ <;> rfl

/-- Helper: endpoint interpolation at `t = 0` returns the first channel. -/
theorem lerpi_zero (a b : ℤ) : lerpi a b 0 = a := by
  unfold lerpi pyTrunc
  rw [zero_mul, add_zero]
  split_ifs <;> simp

/-- Helper: endpoint interpolation at `t = 1` returns the second channel. -/
theorem lerpi_one (a b : ℤ) : lerpi a b 1 = b := by
  unfold lerpi pyTrunc
  have h : (a : ℚ) + 1 * ((b : ℚ) - (a : ℚ)) = (b : ℚ) := by ring
  rw [h]
  split_ifs <;> simp

/-- Helper: `pyAnd` on natural casts is the natural bitwise AND. -/
theorem pyAnd_natCast (a m : ℕ) : pyAnd (↑a) (↑m) = ↑(a &&& m) := rfl

/-- Helper: `pyOr` on natural casts is the natural bitwise OR. -/
theorem pyOr_natCast (a m : ℕ) : pyOr (↑a) (↑m) = ↑(a ||| m) := rfl

/-- Helper: left shift of a natural cast. -/
theorem pyShl_natCast (m k : ℕ) : pyShl (↑m) k = ↑(m * 2 ^ k) := by
  unfold pyShl
  push_cast
  ring

/-- Helper: right shift of a natural cast. -/
theorem pyShr_natCast (m k : ℕ) : pyShr (↑m) k = ↑(m / 2 ^ k) := by
  unfold pyShr
  have h2 : ((2 : ℤ)) ^ k = (((2 ^ k : ℕ)) : ℤ) := by push_cast; ring
  rw [h2, Int.fdiv_eq_ediv _ (by positivity), Int.ofNat_ediv]

/-- Helper: masking below a power of two only sees the low bits. -/
theorem land_mod_two_pow (a m k : ℕ) (h : m < 2 ^ k) :
    a &&& m = (a % 2 ^ k) &&& m := by
  apply Nat.eq_of_testBit_eq
  intro i
  rw [Nat.testBit_land, Nat.testBit_land, Nat.testBit_mod_two_pow]
  rcases Nat.lt_or_ge i k with hik | hik
  · simp [hik]
  · have hmf : m.testBit i = false :=
      Nat.testBit_lt_two_pow (lt_of_lt_of_le h (Nat.pow_le_pow_right (by norm_num) hik))
    simp [hmf, Nat.not_lt.mpr hik]

/-- Helper: OR of a shifted value with a small value is their sum (the
bit ranges are disjoint). -/
theorem lor_mul_pow_add (k a b : ℕ) (h : b < 2 ^ k) :
    ((2 ^ k * a) ||| b) = 2 ^ k * a + b := by
  apply Nat.eq_of_testBit_eq
  intro i
  rw [Nat.testBit_lor]
  have hshift : 2 ^ k * a = a <<< k := by rw [Nat.shiftLeft_eq]; ring
  rcases Nat.lt_or_ge i k with hik | hik
  · have h1 : (2 ^ k * a).testBit i = false := by
      rw [hshift, Nat.testBit_shiftLeft]
      simp [Nat.not_le.mpr hik]
    have h2 : (2 ^ k * a + b).testBit i = b.testBit i := by
      rw [Nat.testBit_to_div_mod, Nat.testBit_to_div_mod]
      have e : (2 : ℕ) ^ k = 2 ^ i * (2 * 2 ^ (k - i - 1)) := by
        have hk : i + (1 + (k - i - 1)) = k := by omega
        conv_lhs => rw [← hk]
        rw [pow_add, pow_add, pow_one]
      have hsplit : 2 ^ k * a + b = 2 ^ i * (2 * (2 ^ (k - i - 1) * a)) + b := by
        rw [e]; ring
      rw [hsplit, Nat.mul_add_div (by positivity)]
      have : (2 * (2 ^ (k - i - 1) * a) + b / 2 ^ i) % 2 = b / 2 ^ i % 2 := by omega
      rw [this]
    rw [h1, h2, Bool.false_or]
  · have hbf : b.testBit i = false :=
      Nat.testBit_lt_two_pow (lt_of_lt_of_le h (Nat.pow_le_pow_right (by norm_num) hik))
    have h2 : (2 ^ k * a + b).testBit i = a.testBit (i - k) := by
      rw [Nat.testBit_to_div_mod, Nat.testBit_to_div_mod]
      have e1 : (2 ^ k * a + b) / 2 ^ i = a / 2 ^ (i - k) := by
        rw [show (2 : ℕ) ^ i = 2 ^ k * 2 ^ (i - k) by rw [← pow_add]; congr 1; omega]
        rw [← Nat.div_div_eq_div_mul]
        congr 1
        rw [Nat.mul_add_div (by positivity), Nat.div_eq_of_lt h, Nat.add_zero]
      rw [e1]
    have h3 : (2 ^ k * a).testBit i = a.testBit (i - k) := by
      rw [hshift, Nat.testBit_shiftLeft]
      simp [hik]
    rw [h3, h2, hbf, Bool.or_false]

/-- Helper: the 0xF8 mask on a three-bit decomposition. -/
theorem mask248_small : ∀ q < 32, ∀ r < 8, (8 * q + r) &&& 248 = 8 * q := by
  set_option maxRecDepth 4000 in decide

/-- Helper: the 0xF8 mask on bytes keeps the top five bits. -/
theorem mask248 (b : ℕ) (h : b < 256) : b &&& 248 = 8 * (b / 8) := by
  conv_lhs => rw [← Nat.div_add_mod b 8]
  exact mask248_small (b / 8) (by omega) (b % 8) (by omega)

/-- Helper: the 0xFC mask on a two-bit decomposition. -/
theorem mask252_small : ∀ q < 64, ∀ r < 4, (4 * q + r) &&& 252 = 4 * q := by
  set_option maxRecDepth 4000 in decide

/-- Helper: the 0xFC mask on bytes keeps the top six bits. -/
theorem mask252 (b : ℕ) (h : b < 256) : b &&& 252 = 4 * (b / 4) := by
  conv_lhs => rw [← Nat.div_add_mod b 4]
  exact mask252_small (b / 4) (by omega) (b % 4) (by omega)

/-- Helper: red-channel unpacking of a 16-bit color. -/
theorem chanR (n : ℕ) (h : n < 65536) : n / 256 &&& 248 = 8 * (n / 2048) := by
  rw [mask248 (n / 256) (by omega)]
  omega

/-- Helper: green-channel unpacking. -/
theorem chanG (n : ℕ) : n / 8 &&& 252 = 4 * (n / 32 % 64) := by
  rw [land_mod_two_pow (n / 8) 252 8 (by norm_num),
    show (2 : ℕ) ^ 8 = 256 by norm_num, mask252 (n / 8 % 256) (by omega)]
  omega

/-- Helper: blue-channel unpacking. -/
theorem chanB (n : ℕ) : n * 8 &&& 248 = 8 * (n % 32) := by
  rw [land_mod_two_pow (n * 8) 248 8 (by norm_num),
    show (2 : ℕ) ^ 8 = 256 by norm_num, mask248 (n * 8 % 256) (by omega)]
  omega

/-- Helper: re-masking an already-masked red or blue channel changes
nothing. -/
theorem remask248 (x : ℕ) (hx : x < 32) : 8 * x &&& 248 = 8 * x := by
  rw [mask248 (8 * x) (by omega)]
  omega

/-- Helper: re-masking an already-masked green channel changes nothing. -/
theorem remask252 (x : ℕ) (hx : x < 64) : 4 * x &&& 252 = 4 * x := by
  rw [mask252 (4 * x) (by omega)]
  omega

/-- Helper: unpacking a 16-bit RGB565 value into channels and repacking
reproduces the value. -/
theorem rgb_unpack_key (n : ℕ) (h : n < 65536) :
    ((n / 256 &&& 248) &&& 248) * 256 ||| ((n / 8 &&& 252) &&& 252) * 8
      ||| ((n * 8 &&& 248) &&& 248) / 8 = n := by
  rw [chanR n h, chanG n, chanB n]
  rw [remask248 _ (by omega), remask252 _ (by omega), remask248 _ (by omega)]
  have e1 : 8 * (n / 2048) * 256 = 2 ^ 11 * (n / 2048) := by ring
  have e2 : 4 * (n / 32 % 64) * 8 = 32 * (n / 32 % 64) := by ring
  have e3 : 8 * (n % 32) / 8 = n % 32 := by omega
  rw [e1, e2, e3]
  rw [lor_mul_pow_add 11 (n / 2048) (32 * (n / 32 % 64)) (by omega)]
  have e4 : 2 ^ 11 * (n / 2048) + 32 * (n / 32 % 64)
      = 2 ^ 5 * (64 * (n / 2048) + n / 32 % 64) := by ring
  rw [e4, lor_mul_pow_add 5 _ (n % 32) (by omega)]
  omega

/-- Helper: at the Int level, unpacking a valid RGB565 color into its
channels and repacking with `rgb` reproduces it. -/
theorem rgb_unpack_int (n : ℕ) (h : n < 65536) :
    rgb (pyAnd (pyShr (↑n) 8) 0xF8) (pyAnd (pyShr (↑n) 3) 0xFC)
      (pyAnd (pyShl (↑n) 3) 0xF8) = (↑n : ℤ) := by
  rw [pyShr_natCast, pyShr_natCast, pyShl_natCast]
  rw [show ((0xF8 : ℤ)) = (((0xF8 : ℕ)) : ℤ) by norm_num,
    show ((0xFC : ℤ)) = (((0xFC : ℕ)) : ℤ) by norm_num]
  rw [pyAnd_natCast, pyAnd_natCast, pyAnd_natCast]
  unfold rgb
  rw [show ((0xF8 : ℤ)) = (((0xF8 : ℕ)) : ℤ) by norm_num,
    show ((0xFC : ℤ)) = (((0xFC : ℕ)) : ℤ) by norm_num]
  rw [pyAnd_natCast, pyAnd_natCast, pyAnd_natCast]
  rw [pyShl_natCast, pyShl_natCast, pyShr_natCast]
  rw [pyOr_natCast, pyOr_natCast]
  rw [Nat.cast_inj]
  exact rgb_unpack_key n h

/-- C8: for all valid RGB565 colors `a` and `b` (16-bit, non-negative),
`blend(a, b, 0) = a` and `blend(a, b, 1) = b` exactly. -/
theorem blend_endpoints (ca cb : ℤ) (h0a : 0 ≤ ca) (hla : ca < 65536)
    (h0b : 0 ≤ cb) (hlb : cb < 65536) :
    blend ca cb 0 = ca ∧ blend ca cb 1 = cb := by
  obtain ⟨n, rfl⟩ : ∃ n : ℕ, ca = (n : ℤ) := ⟨ca.toNat, by omega⟩
  obtain ⟨p, rfl⟩ : ∃ p : ℕ, cb = (p : ℤ) := ⟨cb.toNat, by omega⟩
  have hn : n < 65536 := by exact_mod_cast hla
  have hp : p < 65536 := by exact_mod_cast hlb
  constructor
  · rw [blend, lerpi_zero, lerpi_zero, lerpi_zero]
    exact rgb_unpack_int n hn
  · rw [blend, lerpi_one, lerpi_one, lerpi_one]
    exact rgb_unpack_int p hp

/-- C8 (witness): the endpoints at the concrete pure-red and pure-green
RGB565 colors 0xF800 and 0x07E0. -/
theorem blend_endpoints_witness :
    blend 0xF800 0x07E0 0 = 0xF800 ∧ blend 0xF800 0x07E0 1 = 0x07E0 :=
  blend_endpoints 0xF800 0x07E0 (by norm_num) (by norm_num) (by norm_num)
    (by norm_num)
